import Mathlib

/-!
Verification of the WireTAP SocketCAN-to-TCP GVRET bridge server
(`src/tools/wiretap-server/wiretap-server.py`) against its specification.

The Python source is shallowly embedded: pure helpers become Lean functions,
byte strings become `List Nat` (one `Nat` per byte), and the stateful
ingest-pipeline worker becomes an explicit transition system on a record of
its queue, disk cache, committed rows and counters.  Machine integers are
modelled as `Nat` with explicit masking (`&&&`, `%`) exactly where the
source masks.
-/

namespace WireTap

/-! ## CAN constants (source lines 31-48) -/

def CAN_EFF_FLAG : Nat := 0x80000000
def CAN_RTR_FLAG : Nat := 0x40000000
def CAN_ERR_FLAG : Nat := 0x20000000
def CAN_EFF_MASK : Nat := 0x1FFFFFFF
def CAN_SFF_MASK : Nat := 0x000007FF
def CANFD_BRS : Nat := 0x01
def CANFD_ESI : Nat := 0x02

/-- CAN FD DLC to length table (source line 48):
`CAN_FD_DLC_LEN = [0,1,2,3,4,5,6,7,8,12,16,20,24,32,48,64]`. -/
def CAN_FD_DLC_LEN : List Nat := [0, 1, 2, 3, 4, 5, 6, 7, 8, 12, 16, 20, 24, 32, 48, 64]

/-- `dlc_to_len` (source lines 50-56): convert DLC to actual data length. -/
def dlc_to_len (dlc : Nat) (is_fd : Bool) : Nat :=
  if dlc ≤ 8 then dlc
  else if is_fd ∧ dlc ≤ 15 then CAN_FD_DLC_LEN.getD dlc 0
  else 8

/-- `len_to_dlc` (source lines 58-65): convert data length to DLC; for CAN FD
finds the minimum DLC whose table length fits, scanning the table in order. -/
def len_to_dlc (length : Nat) : Nat :=
  if length ≤ 8 then length
  else
    match CAN_FD_DLC_LEN.findIdx? (fun dlen => length ≤ dlen) with
    | some dlc => dlc
    | none => 15

/-! ## Little-endian byte helpers

`int.to_bytes(n, "little")` / `int.from_bytes(..., "little")` from the source.
`toLE4 n` agrees with `n.to_bytes(4, "little")` whenever `n < 2^32`; every
call site in the source either masks its argument to 32 bits or is guarded
(an oversized argument raises `OverflowError` in Python, which the embedding
models with `Option` at the one reachable site, `reply_canbus_params`). -/

def toLE4 (n : Nat) : List Nat :=
  [n % 256, n / 256 % 256, n / 65536 % 256, n / 16777216 % 256]

def toLE2 (n : Nat) : List Nat := [n % 256, n / 256 % 256]

def fromLE4 (b0 b1 b2 b3 : Nat) : Nat :=
  b0 + 256 * b1 + 65536 * b2 + 16777216 * b3

/-! ## Queue rows

One row destined for the SQL store, in the tuple order built by
`PostgresWriter.enqueue` (source lines 421-431):
`(ts, extended, is_fd, arb_id, id_hex, dlc, data, bus, dir)`.
The wall-clock timestamp is an opaque `Nat` (microseconds); `id_hex` is
always `None` in the source. -/

structure Row where
  ts : Nat
  extended : Bool
  is_fd : Bool
  arb : Nat
  idHex : Option Nat
  dlc : Nat
  data : List Nat
  bus : Nat
  dir : String
deriving DecidableEq

/-- A concrete row used by closed theorems below. -/
def sampleRow : Row := ⟨0, false, false, 0x123, none, 3, [0xAA, 0xBB, 0xCC], 0, "rx"⟩

/-! ## Disk spill store (`DiskCache`, source lines 215-343)

The SQLite cache is modelled by the list of rows it holds.  `sizeBytes` is
the observed file size (`self.path.stat().st_size`, source lines 312-317);
the model holds it abstract because the source only ever reads it through
`size_bytes()`/`is_full()`. -/

structure DiskCacheM where
  rows : List Row
  sizeBytes : Nat
  maxBytes : Nat
deriving DecidableEq

/-- `DiskCache.size_bytes` (source lines 312-317). -/
def DiskCacheM.size_bytes (c : DiskCacheM) : Nat := c.sizeBytes

/-- `DiskCache.is_full` (source lines 319-321): `size_bytes() >= max_bytes`. -/
def DiskCacheM.is_full (c : DiskCacheM) : Bool := decide (c.maxBytes ≤ c.size_bytes)

/-- `DiskCache.write_batch` (source lines 250-272): inserts every row of the
batch and returns the number written.  The source performs no fullness check
here. -/
def DiskCacheM.write_batch (c : DiskCacheM) (batch : List Row) : DiskCacheM × Nat :=
  ({ c with rows := c.rows ++ batch }, batch.length)

/-- `PostgresWriter._write_to_cache` (source lines 609-622): check
`is_full()` first; when full, drop the whole batch and bump the drop
counter, otherwise append via `write_batch` and bump the cached counter.
Takes and returns the two counters it touches. -/
def write_to_cache (c : DiskCacheM) (countDropped countCached : Nat) (batch : List Row) :
    DiskCacheM × Nat × Nat :=
  if c.is_full then (c, countDropped + batch.length, countCached)
  else
    let r := c.write_batch batch
    (r.1, countDropped, countCached + r.2)

/-! ## GVRET `GET_BUS_PARAMS` response (source lines 830-851) -/

/-- `CanTcpServer.__init__` (source line 1081): the advertised bus count is
`bus_offset + len(can_socks)`, while `bus_speeds` has one entry per
interface. -/
def busCountOf (busOffset nSocks : Nat) : Nat := busOffset + nSocks

/-- `GVRETClient.reply_canbus_params` (source lines 830-851).  Returns the
bytes sent, or `none` when the handler raises instead of replying: the
source evaluates `self.bus_speeds[0]` / `self.bus_speeds[1]` whenever the
advertised bus count reaches 1 / 2, which raises `IndexError` when the
speeds tuple is shorter, and `int(speed).to_bytes(4, "little")` raises
`OverflowError` for a speed that does not fit 32 bits. -/
def canbusParamsResp (busCount : Nat) (busSpeeds : List Nat) : Option (List Nat) :=
  let can0_enabled : Nat := if 1 ≤ busCount then 1 else 0
  let can1_enabled : Nat := if 2 ≤ busCount then 1 else 0
  -- can0_listen / can1_listen are the constant 0 in the source, so the
  -- flags byte is exactly the enabled bit (listen-only would be bit 4).
  let can0_flags := can0_enabled
  let can1_flags := can1_enabled
  match (if 1 ≤ busCount then busSpeeds.get? 0 else some 0),
        (if 2 ≤ busCount then busSpeeds.get? 1 else some 0) with
  | some s0, some s1 =>
      if s0 < 2 ^ 32 ∧ s1 < 2 ^ 32 then
        some ([0xF1, 0x06, can0_flags] ++ toLE4 s0 ++ [can1_flags] ++ toLE4 s1)
      else none
  | _, _ => none

/-! ## GVRET outbound frame push (source lines 970-1005) -/

/-- `GVRETClient.send_frame`: the bytes pushed to one client for one frame.
`elapsedUs` stands for `int((time.monotonic() - self.t0) * 1_000_000)`, the
microseconds since session start, which the source masks with
`& 0xFFFFFFFF`.  Returns `[]` when the session has not entered binary
mode (the source returns without sending). -/
def send_frame (binary : Bool) (elapsedUs : Nat) (can_id : Nat) (bus : Nat)
    (data : List Nat) (is_fd : Bool) : List Nat :=
  if binary = false then []
  else
    let data_len := if is_fd then min data.length 64 else min data.length 8
    let dlc := if is_fd then len_to_dlc data_len else data_len
    let is_eff := decide (can_id &&& CAN_EFF_FLAG ≠ 0)
    let arb_id := can_id &&& (if is_eff then CAN_EFF_MASK else CAN_SFF_MASK)
    let gvret_id := arb_id ||| (if is_eff then 0x80000000 else 0)
    let ts_us := elapsedUs &&& 0xFFFFFFFF
    let bus_and_dlc := ((bus &&& 0x0F) <<< 4) ||| (dlc &&& 0x0F)
    [0xF1, 0x00] ++ toLE4 ts_us ++ toLE4 gvret_id ++ [bus_and_dlc]
      ++ data.take data_len ++ [0x00]

/-! ## Frame codec (kernel layout, source lines 1128-1148 and 1204-1218)

The internal Frame of §3 of the specification.  In the source a frame
travels as a SocketCAN `can_id` word (arbitration identifier plus the
EFF/RTR/ERR flag bits), a payload, an FD marker and an FD-flags byte; the
structure below names those semantic fields. -/

structure Frame where
  ext : Bool
  rtr : Bool
  err : Bool
  fd : Bool
  brs : Bool
  esi : Bool
  arb : Nat
  data : List Nat
deriving DecidableEq

/-- The SocketCAN identifier word of a Frame: the arbitration identifier
with `CAN_EFF_FLAG` / `CAN_RTR_FLAG` / `CAN_ERR_FLAG` or-ed in (the flag
composition used at source line 962 and inverted at lines 413-414 and
162-166). -/
def mkCanId (f : Frame) : Nat :=
  f.arb ||| (if f.ext then CAN_EFF_FLAG else 0) ||| (if f.rtr then CAN_RTR_FLAG else 0)
    ||| (if f.err then CAN_ERR_FLAG else 0)

/-- Classic 16-byte kernel frame, `struct.pack("<IB3x8s", can_id, dlc,
data[:8].ljust(8, b"\x00"))` with `dlc = min(len(data), 8)` (source lines
1144-1145). -/
def canFrameBytes (can_id : Nat) (data : List Nat) : List Nat :=
  toLE4 can_id ++ [min data.length 8] ++ [0, 0, 0]
    ++ (data.take 8 ++ List.replicate (8 - min data.length 8) 0)

/-- FD 72-byte kernel frame, `struct.pack("<IBBBB64s", can_id, data_len, 0,
0, 0, data.ljust(64, b"\x00"))` with `data_len = min(len(data), 64)`
(source lines 1139-1141); the FD-flags byte and both reserved bytes are
written as zero. -/
def canfdFrameBytes (can_id : Nat) (data : List Nat) : List Nat :=
  toLE4 can_id ++ [min data.length 64] ++ [0] ++ [0, 0]
    ++ (data.take 64 ++ List.replicate (64 - min data.length 64) 0)

/-- `CanTcpServer._tx_can`'s choice of layout (source lines 1136-1146): FD
only when both the frame is FD and the server runs in FD mode, classic
otherwise. -/
def encodeFrame (canFdMode : Bool) (f : Frame) : List Nat :=
  if f.fd && canFdMode then canfdFrameBytes (mkCanId f) f.data
  else canFrameBytes (mkCanId f) f.data

/-- Rebuild the internal Frame from a received `can_id` word, FD marker,
FD-flags byte and payload, extracting the flag bits exactly as the source
does (`can_id & CAN_EFF_FLAG` etc., lines 162-166 and 413-414, and
`fd_flags & CANFD_BRS` / `& CANFD_ESI`, lines 176-179). -/
def mkFrame (can_id : Nat) (fd : Bool) (fd_flags : Nat) (data : List Nat) : Frame :=
  let ext := decide (can_id &&& CAN_EFF_FLAG ≠ 0)
  { ext := ext
    rtr := decide (can_id &&& CAN_RTR_FLAG ≠ 0)
    err := decide (can_id &&& CAN_ERR_FLAG ≠ 0)
    fd := fd
    brs := fd && decide (fd_flags &&& CANFD_BRS ≠ 0)
    esi := fd && decide (fd_flags &&& CANFD_ESI ≠ 0)
    arb := can_id &&& (if ext then CAN_EFF_MASK else CAN_SFF_MASK)
    data := data }

/-- Decode one kernel frame as the reader does (source lines 1204-1218):
72 bytes is FD (`<IBB` header, payload `frame[8:8+len]`), 16 bytes is
classic (`<IB` header, payload `frame[8:8+min(dlc,8)]`), anything else is
discarded. -/
def decodeFrame (frame : List Nat) : Option Frame :=
  if frame.length = 72 then
    -- canfd_frame: u32 can_id, u8 len, u8 fd_flags, 2 reserved, 64 data
    some (mkFrame (fromLE4 (frame.getD 0 0) (frame.getD 1 0) (frame.getD 2 0) (frame.getD 3 0))
      true (frame.getD 5 0) ((frame.drop 8).take (frame.getD 4 0)))
  else if frame.length = 16 then
    -- can_frame: u32 can_id, u8 dlc, 3 pad, 8 data; data_len = min(dlc, 8)
    some (mkFrame (fromLE4 (frame.getD 0 0) (frame.getD 1 0) (frame.getD 2 0) (frame.getD 3 0))
      false 0 ((frame.drop 8).take (min (frame.getD 4 0) 8)))
  else none

/-- The §3 Frame invariants: FD frames carry one of the valid FD lengths,
classic frames at most 8 bytes; the arbitration identifier fits 29 bits
when extended and 11 bits otherwise; remote frames carry no payload; and
payload entries are bytes. -/
def FrameInv (f : Frame) : Prop :=
  (f.fd = true → f.data.length ∈ CAN_FD_DLC_LEN) ∧
  (f.fd = false → f.data.length ≤ 8) ∧
  (f.ext = true → f.arb < 2 ^ 29) ∧
  (f.ext = false → f.arb < 2 ^ 11) ∧
  (f.rtr = true → f.data = []) ∧
  (∀ b ∈ f.data, b < 256)

/-- Concrete FD frame with the bit-rate-switch flag set, used by the C3
counterexample. -/
def brsFrame : Frame := ⟨false, false, false, true, true, false, 0x123, [1, 2, 3, 4]⟩

/-- Concrete extended FD frame with BRS and ESI clear, used by the C3
witness. -/
def fdOkFrame : Frame :=
  ⟨true, false, false, true, false, false, 0x1ABCDEF, [0, 1, 2, 3, 4, 5, 6, 7, 8, 9, 10, 11]⟩

/-! ## GVRET client receive loop (`GVRETClient._rx_loop`, source lines 866-929)

One call to `rxStep` models the processing the receive loop performs on its
buffer after one `recv` chunk arrives: the handshake scan deleting through
every `E7 E7`, then, in binary state, the command parse loop.  Responses
and transmitted frames are collected as events; `crashed = true` marks an
exception escaping a command handler (which ends the receive loop and
closes the session). -/

inductive OutEvent
  | resp (bytes : List Nat)
  | tx (bus : Nat) (canId : Nat) (data : List Nat)
deriving DecidableEq

structure RxOut where
  buf : List Nat
  out : List OutEvent
  crashed : Bool
deriving DecidableEq

/-- `GVRETClient.reply_keepalive` (source lines 862-864). -/
def keepaliveResp : List Nat := [0xF1, 0x09, 0xDE, 0xAD]

/-- `GVRETClient.reply_dev_info` (source lines 817-828): build 400,
eeprom 1, then three zero bytes. -/
def devInfoResp : List Nat := [0xF1, 0x07] ++ toLE2 400 ++ [1, 0, 0, 0]

/-- `GVRETClient.reply_num_buses` (source lines 853-855). -/
def numBusesResp (busCount : Nat) : List Nat := [0xF1, 0x0C, busCount &&& 0xFF]

/-- `GVRETClient.reply_timebase` (source lines 857-860). -/
def timebaseResp (elapsedUs : Nat) : List Nat :=
  [0xF1, 0x01] ++ toLE4 (elapsedUs &&& 0xFFFFFFFF)

/-- `GVRETClient._try_consume_send_frame` (source lines 931-968): parse
`F1 00 <ID:4 LE> <bus:1> <len:1> <data:len>`; `none` means not enough
bytes yet (wait for more).  On success returns the tx call made and the
remaining buffer. -/
def tryConsumeSendFrame (buf : List Nat) : Option (OutEvent × List Nat) :=
  if buf.length < 8 then none
  else if ¬(buf.getD 0 0 = 0xF1 ∧ buf.getD 1 0 = 0x00) then none
  else
    let dlc0 := buf.getD 7 0
    let need := 8 + dlc0
    if buf.length < need then none
    else
      let can_id_le := fromLE4 (buf.getD 2 0) (buf.getD 3 0) (buf.getD 4 0) (buf.getD 5 0)
      let bus := buf.getD 6 0 &&& 0xFF
      let dlc := min dlc0 8
      let data := (buf.drop 8).take dlc
      let is_eff := decide (can_id_le &&& 0x80000000 ≠ 0)
      let arb := can_id_le &&& (if is_eff then 0x1FFFFFFF else 0x7FF)
      let can_id_sc := arb ||| (if is_eff then CAN_EFF_FLAG else 0)
      some (.tx bus can_id_sc data, buf.drop need)

inductive DispatchOut
  | crash
  | events (evs : List OutEvent)
deriving DecidableEq

/-- The command dispatch of the parse loop (source lines 912-924): fixed
commands reply, unknown commands are ignored, and a handler that raises
(`reply_canbus_params` on a missing speed entry) aborts the loop. -/
def dispatchCmd (busCount : Nat) (speeds : List Nat) (elapsedUs : Nat) (cmd : Nat) :
    DispatchOut :=
  if cmd = 0x07 then .events [.resp devInfoResp]
  else if cmd = 0x06 then
    match canbusParamsResp busCount speeds with
    | some bs => .events [.resp bs]
    | none => .crash
  else if cmd = 0x0C then .events [.resp (numBusesResp busCount)]
  else if cmd = 0x01 then .events [.resp (timebaseResp elapsedUs)]
  else if cmd = 0x09 then .events [.resp keepaliveResp]
  else .events []

/-- The resynchronisation predicate: bytes before the next `F1` sentinel
are dropped (source lines 887-889). -/
def notF1 (x : Nat) : Bool := x != 0xF1

/-- The binary-state command parse loop (source lines 886-924), with
explicit fuel; one unit of fuel per loop iteration, each of which consumes
at least two bytes, so any fuel of at least the buffer length is enough. -/
def goBin (busCount : Nat) (speeds : List Nat) (elapsedUs : Nat) :
    Nat → List Nat → RxOut
  | 0, buf => ⟨buf.dropWhile notF1, [], false⟩
  | fuel + 1, buf =>
    let b := buf.dropWhile notF1
    if b.length < 2 then ⟨b, [], false⟩
    else if b.getD 1 0 = 0x00 then
      match tryConsumeSendFrame b with
      | none => ⟨b, [], false⟩
      | some (ev, rest) =>
        let r := goBin busCount speeds elapsedUs fuel rest
        ⟨r.buf, ev :: r.out, r.crashed⟩
    else
      match dispatchCmd busCount speeds elapsedUs (b.getD 1 0) with
      | .crash => ⟨b.drop 2, [], true⟩
      | .events evs =>
        let r := goBin busCount speeds elapsedUs fuel (b.drop 2)
        ⟨r.buf, evs ++ r.out, r.crashed⟩

def parseBinary (busCount : Nat) (speeds : List Nat) (elapsedUs : Nat) (buf : List Nat) :
    RxOut :=
  goBin busCount speeds elapsedUs (buf.length + 1) buf

/-- `self.buf.find(b"\xE7\xE7")` (source line 878): index of the first
adjacent pair of `E7` bytes. -/
def findE7E7 : List Nat → Option Nat
  | [] => none
  | [_] => none
  | a :: b :: rest =>
      if a = 0xE7 ∧ b = 0xE7 then some 0
      else (findE7E7 (b :: rest)).map (fun i => i + 1)

/-- The handshake loop (source lines 877-883): repeatedly find `E7 E7`,
delete the buffer through it, and remember that the session entered binary
mode.  Fuel as for `goBin`; each iteration deletes at least two bytes. -/
def hsLoopF : Nat → List Nat → List Nat × Bool
  | 0, buf => (buf, false)
  | fuel + 1, buf =>
    match findE7E7 buf with
    | none => (buf, false)
    | some i =>
      let r := hsLoopF fuel (buf.drop (i + 2))
      (r.1, true)

def hsLoop (buf : List Nat) : List Nat × Bool := hsLoopF buf.length buf

/-- One iteration of `GVRETClient._rx_loop` after receiving `chunk`
(source lines 871-924): append to the buffer, run the handshake loop
(entering binary mode if a pair was found), then in binary mode run the
command parse loop. -/
def rxStep (busCount : Nat) (speeds : List Nat) (elapsedUs : Nat) (binary : Bool)
    (buf chunk : List Nat) : Bool × RxOut :=
  let d := buf ++ chunk
  let h := hsLoop d
  let binary2 := binary || h.2
  if binary2 then (binary2, parseBinary busCount speeds elapsedUs h.1)
  else (binary2, ⟨h.1, [], false⟩)

/-! ## Server transmit path (`CanTcpServer._tx_can`, source lines 1128-1163) -/

structure TxCanResult where
  sockIdx : Nat
  frame : List Nat
  row : Row
deriving DecidableEq

/-- `PostgresWriter.enqueue`'s row construction (source lines 410-431):
flag extraction from the identifier word, payload truncation to the
DLC-derived length, direction tag. -/
def enqueueRow (ts : Nat) (can_id dlc : Nat) (data : List Nat) (bus : Nat)
    (dir : String) (is_fd : Bool) : Row :=
  let extended := decide (can_id &&& CAN_EFF_FLAG ≠ 0)
  let arb_id := can_id &&& (if extended then CAN_EFF_MASK else CAN_SFF_MASK)
  let data_len := if is_fd then dlc_to_len dlc true else min dlc 8
  ⟨ts, extended, is_fd, arb_id, none, dlc, data.take data_len, bus, dir⟩

/-- `CanTcpServer._tx_can`: route a client-built frame to the CAN socket at
index `bus - bus_offset` (out of range: silently dropped, `none`), write
the classic or FD kernel frame, and enqueue a "tx" row.  `ts` stands for
`time.time()` at the call. -/
def tx_can (busOffset nSocks : Nat) (canFdMode : Bool) (ts : Nat)
    (bus can_id : Nat) (data : List Nat) (is_fd : Bool) : Option TxCanResult :=
  if bus < busOffset then none
  else if nSocks ≤ bus - busOffset then none
  else if is_fd && canFdMode then
    let data_len := min data.length 64
    let dlc := len_to_dlc data_len
    some ⟨bus - busOffset, canfdFrameBytes can_id data,
      enqueueRow ts can_id dlc (data.take data_len) bus "tx" true⟩
  else
    -- data_len is not reduced in this branch: enqueue receives data[:len(data)]
    let dlc := min data.length 8
    some ⟨bus - busOffset, canFrameBytes can_id data,
      enqueueRow ts can_id dlc data bus "tx" false⟩

/-! ## Ingest pipeline (`PostgresWriter`, source lines 346-777)

Entries are abstracted to consecutive ids (`nextId`); the queue, the disk
spill store and the SQL store are id lists in arrival order.  Whether the
spill store reports full at a given `_write_to_cache` call, and whether a
database operation fails, are environment choices carried by the events. -/

structure PipeParams where
  cap : Nat        -- queue maxsize (0 = unbounded), source line 385
  batchSize : Nat  -- self.batch_size
  thrPct : Nat     -- queue-flush threshold as a percentage
deriving DecidableEq

structure PipeState where
  nextId : Nat
  queue : List Nat        -- self.q, front = oldest
  cache : List Nat        -- disk spill store contents, append order
  written : List Nat      -- rows committed to the SQL store, commit order
  connected : Bool        -- self._conn is live
  cEnq : Nat              -- count_enqueued
  cWritten : Nat          -- count_written
  cDropped : Nat          -- count_dropped
  cCached : Nat           -- count_cached
  cRecovered : Nat        -- count_cache_recovered
  qfDrops : Nat           -- drops at source line 438 (queue Full)
  spDrops : Nat           -- drops at source lines 614 and 622 (spill full/error)
deriving DecidableEq

def initPipe : PipeState := ⟨0, [], [], [], false, 0, 0, 0, 0, 0, 0, 0⟩

/-- `PostgresWriter._write_to_cache` (source lines 609-622): when the spill
store is full the batch is dropped and counted, otherwise it is appended
and `count_cached` grows. -/
def wtc (s : PipeState) (c : List Nat) (full : Bool) : PipeState :=
  if full then
    { s with cDropped := s.cDropped + c.length, spDrops := s.spDrops + c.length }
  else
    { s with cache := s.cache ++ c, cCached := s.cCached + c.length }

/-- `PostgresWriter._drain_queue_to_cache` (source lines 624-645): move the
queue to the spill store in chunks of `batch_size`, one `_write_to_cache`
(with its own fullness check, head of `fl`) per chunk.  Fuel as elsewhere:
each iteration consumes at least one entry. -/
def drainQAux (k : Nat) : Nat → List Nat → List Bool → PipeState → PipeState
  | 0, l, fl, s => if l = [] then s else wtc s l (fl.getD 0 false)
  | f + 1, l, fl, s =>
      if l = [] then s
      else drainQAux k f (l.drop k) fl.tail (wtc s (l.take k) (fl.getD 0 false))

def drainQ (p : PipeParams) (fulls : List Bool) (s : PipeState) : PipeState :=
  drainQAux (max 1 p.batchSize) s.queue.length s.queue fulls { s with queue := [] }

inductive PipeEv
  /-- a client calls `enqueue` (source lines 410-439) -/
  | enq
  /-- `_connect` succeeds (source line 515) -/
  | connectOk
  /-- `_connect` raises: handler with empty batch, queue drained to spill
  (source lines 586-604) -/
  | connectFail (fulls : List Bool)
  /-- `_maybe_flush_queue_overflow` (source lines 647-659) -/
  | overflowFlush (fulls : List Bool)
  /-- cache drain iteration succeeds (source lines 535-548) -/
  | cacheDrainOk
  /-- cache drain insert raises: rows were read but not deleted, yet the
  handler re-appends the batch to the spill store (source lines 595-598) -/
  | cacheDrainFail (full : Bool) (fulls : List Bool)
  /-- memory-queue batch insert succeeds (source lines 561-584) -/
  | memOk
  /-- memory-queue batch insert raises (source lines 586-604) -/
  | memFail (full : Bool) (fulls : List Bool)
deriving DecidableEq

/-- One worker/enqueue step of the pipeline. -/
def stepPipe (p : PipeParams) (s : PipeState) (e : PipeEv) : PipeState :=
  match e with
  | .enq =>
      if p.cap = 0 ∨ s.queue.length < p.cap then
        { s with queue := s.queue ++ [s.nextId], nextId := s.nextId + 1,
                 cEnq := s.cEnq + 1 }
      else
        { s with nextId := s.nextId + 1, cDropped := s.cDropped + 1,
                 qfDrops := s.qfDrops + 1 }
  | .connectOk => { s with connected := true }
  | .connectFail fulls =>
      if s.connected then s else drainQ p fulls s
  | .overflowFlush fulls =>
      if p.cap ≠ 0 ∧ p.thrPct * p.cap ≤ 100 * s.queue.length then
        drainQ p fulls s
      else s
  | .cacheDrainOk =>
      if s.connected ∧ s.cache ≠ [] then
        let k := min p.batchSize s.cache.length
        { s with cache := s.cache.drop k, written := s.written ++ s.cache.take k,
                 cWritten := s.cWritten + k, cRecovered := s.cRecovered + k }
      else s
  | .cacheDrainFail full fulls =>
      if s.connected ∧ s.cache ≠ [] then
        let k := min p.batchSize s.cache.length
        drainQ p fulls (wtc { s with connected := false } (s.cache.take k) full)
      else s
  | .memOk =>
      if s.connected ∧ s.cache = [] then
        let k := min p.batchSize s.queue.length
        { s with queue := s.queue.drop k, written := s.written ++ s.queue.take k,
                 cWritten := s.cWritten + k }
      else s
  | .memFail full fulls =>
      if s.connected ∧ s.cache = [] then
        let k := min p.batchSize s.queue.length
        drainQ p fulls (wtc { s with queue := s.queue.drop k, connected := false }
          (s.queue.take k) full)
      else s

def runPipe (p : PipeParams) (evs : List PipeEv) : PipeState :=
  evs.foldl (stepPipe p) initPipe

/-- Events whose handler does not re-append already-stored spill rows:
everything except `cacheDrainFail`, whose batch was read from the store
without being deleted (source lines 535-541 and 595-598). -/
def goodEv : PipeEv → Bool
  | .cacheDrainFail _ _ => false
  | _ => true

/-- The corrected accounting invariant: `count_enqueued` splits into rows
committed, rows dropped at the spill store, rows sitting in the spill
store, and rows sitting in the queue; `count_dropped` splits into
queue-full drops and spill drops. -/
def InvPipe (s : PipeState) : Prop :=
  s.cEnq = s.cWritten + s.spDrops + s.cache.length + s.queue.length ∧
  s.cDropped = s.qfDrops + s.spDrops

end WireTap

namespace WireTap

/-! ## Claim theorems: DLC mapping -/

/-- C4: for every N in the FD length table, `dlc_to_len (len_to_dlc N) true = N`;
for every DLC D in 0..15, `len_to_dlc (dlc_to_len D true) = D`; and for every
payload length L ≤ 64, `len_to_dlc L` is the smallest DLC whose mapped FD
length is at least L. -/
theorem claim_C4_dlc_mapping :
    (∀ n, n ∈ CAN_FD_DLC_LEN → dlc_to_len (len_to_dlc n) true = n) ∧
    (∀ d, d < 16 → len_to_dlc (dlc_to_len d true) = d) ∧
    (∀ l, l ≤ 64 →
      l ≤ dlc_to_len (len_to_dlc l) true ∧
      ∀ d, d < len_to_dlc l → dlc_to_len d true < l) := by
  decide

/-- Witness: the C4 round trips evaluated at the concrete inputs 48 and 13. -/
theorem claim_C4_dlc_mapping_witness :
    dlc_to_len (len_to_dlc 48) true = 48 ∧ len_to_dlc (dlc_to_len 13 true) = 13 :=
  ⟨claim_C4_dlc_mapping.1 48 (by decide), claim_C4_dlc_mapping.2.1 13 (by decide)⟩

/-! ## Claim theorems: spill-store fullness (C8) -/

/-- C8 counterexample: with the store exactly at its configured maximum
(`is_full` holds), `DiskCache.write_batch` does not fail — it stores the
batch (the row list grows) and reports one row written.  The fullness check
is not in the append operation. -/
theorem claim_C8_counterexample :
    DiskCacheM.is_full ⟨[], 1048576000, 1048576000⟩ = true ∧
    (DiskCacheM.write_batch ⟨[], 1048576000, 1048576000⟩ [sampleRow]).1.rows = [sampleRow] ∧
    (DiskCacheM.write_batch ⟨[], 1048576000, 1048576000⟩ [sampleRow]).2 = 1 := by
  refine ⟨by decide, rfl, rfl⟩

/-- C8 amended: the fullness guard lives in the caller
(`PostgresWriter._write_to_cache`), not in the store's append: whenever the
store is at or above its maximum, `_write_to_cache` performs no append at
all (the store, including its contents, is unchanged) and adds the batch
size to the drop counter. -/
theorem claim_C8_amended (c : DiskCacheM) (countDropped countCached : Nat)
    (batch : List Row) (h : c.is_full = true) :
    write_to_cache c countDropped countCached batch =
      (c, countDropped + batch.length, countCached) := by
  simp [write_to_cache, h]

/-- Witness: C8 amended applied to a concrete full store. -/
theorem claim_C8_amended_witness :
    write_to_cache ⟨[], 1048576000, 1048576000⟩ 0 0 [sampleRow] =
      (⟨[], 1048576000, 1048576000⟩, 0 + 1, 0) :=
  claim_C8_amended ⟨[], 1048576000, 1048576000⟩ 0 0 [sampleRow] (by decide)

/-! ## Claim theorems: GET_BUS_PARAMS (C7) -/

/-- C7 counterexample: a session advertising `bus_count = bus_offset + 1 = 2`
over a single interface (so `bus_speeds` has one entry) gets no
`F1 06` response at all — the handler's `bus_speeds[1]` lookup fails, so
nothing is sent (and the session's receive loop terminates). -/
theorem claim_C7_counterexample :
    canbusParamsResp (busCountOf 1 1) [500000] = none := by
  decide

/-- C7 amended: provided the interface list supplies a speed for each of the
first `min bus_count 2` buses (and each speed fits 32 bits), the
`GET_BUS_PARAMS` response is `F1 06` followed, for each of the first two
buses, by one flags byte (bit 0 = enabled, bit 4 = listen-only, always 0)
and the 32-bit little-endian nominal bit rate, a bus beyond the advertised
count contributing zero flags and zero rate.  Without that proviso (e.g.
`bus_offset ≥ 1` with a single interface) the handler raises instead of
responding. -/
theorem claim_C7_amended (busCount : Nat) (speeds : List Nat)
    (hlen : min busCount 2 ≤ speeds.length)
    (hbound : ∀ s ∈ speeds, s < 2 ^ 32) :
    canbusParamsResp busCount speeds =
      some ([0xF1, 0x06]
        ++ [if 1 ≤ busCount then 1 else 0]
        ++ toLE4 (if 1 ≤ busCount then speeds.getD 0 0 else 0)
        ++ [if 2 ≤ busCount then 1 else 0]
        ++ toLE4 (if 2 ≤ busCount then speeds.getD 1 0 else 0)) := by
  match busCount, speeds with
  | 0, speeds =>
      simp [canbusParamsResp]
  | 1, [] =>
      simp at hlen
  | 1, s0 :: rest =>
      have h0 : s0 < 2 ^ 32 := hbound s0 (by simp)
      simp [canbusParamsResp, List.getD, h0]
      omega
  | (n + 2), [] =>
      simp at hlen
  | (n + 2), [s0] =>
      simp at hlen
  | (n + 2), s0 :: s1 :: rest =>
      have h0 : s0 < 2 ^ 32 := hbound s0 (by simp)
      have h1 : s1 < 2 ^ 32 := hbound s1 (by simp)
      simp [canbusParamsResp, List.getD, h0, h1]
      omega

/-! ## Bridge lemmas between the source's bit operations and arithmetic -/

theorem land_two_pow (x k : Nat) : x &&& 2 ^ k = if x.testBit k then 2 ^ k else 0 := by
  apply Nat.eq_of_testBit_eq
  intro i
  by_cases hk : k = i
  · subst hk
    by_cases h : x.testBit k <;> simp [h, Nat.testBit_and, Nat.testBit_two_pow]
  · by_cases h : x.testBit k <;>
      simp [h, Nat.testBit_and, Nat.testBit_two_pow, hk]

theorem land_eff_flag_eq (x : Nat) :
    x &&& CAN_EFF_FLAG = if x.testBit 31 then CAN_EFF_FLAG else 0 := by
  have h : CAN_EFF_FLAG = 2 ^ 31 := by norm_num [CAN_EFF_FLAG]
  rw [h, land_two_pow]

theorem land_eff_flag_ne (x : Nat) :
    decide (x &&& CAN_EFF_FLAG ≠ 0) = x.testBit 31 := by
  rw [land_eff_flag_eq]
  by_cases h : x.testBit 31 <;> simp [h, CAN_EFF_FLAG]

theorem land_eff_mask (x : Nat) : x &&& CAN_EFF_MASK = x % 2 ^ 29 := by
  have h : CAN_EFF_MASK = 2 ^ 29 - 1 := by norm_num [CAN_EFF_MASK]
  rw [h, Nat.and_pow_two_sub_one_eq_mod]

theorem land_sff_mask (x : Nat) : x &&& CAN_SFF_MASK = x % 2 ^ 11 := by
  have h : CAN_SFF_MASK = 2 ^ 11 - 1 := by norm_num [CAN_SFF_MASK]
  rw [h, Nat.and_pow_two_sub_one_eq_mod]

theorem land_u32_mask (x : Nat) : x &&& 0xFFFFFFFF = x % 2 ^ 32 := by
  have h : (0xFFFFFFFF : Nat) = 2 ^ 32 - 1 := by norm_num
  rw [h, Nat.and_pow_two_sub_one_eq_mod]

theorem land_nibble (x : Nat) : x &&& 0x0F = x % 16 := by
  have h : (0x0F : Nat) = 2 ^ 4 - 1 := by norm_num
  have h16 : (16 : Nat) = 2 ^ 4 := by norm_num
  rw [h, Nat.and_pow_two_sub_one_eq_mod, h16]

theorem mul_pow_lor_eq_add (a k : Nat) {b : Nat} (h : b < 2 ^ k) :
    a * 2 ^ k ||| b = a * 2 ^ k + b := by
  rw [Nat.mul_comm a (2 ^ k)]
  exact (Nat.mul_add_lt_is_or h a).symm

theorem lor_high_bit {b : Nat} (h : b < 2 ^ 31) : b ||| 0x80000000 = b + 2 ^ 31 := by
  have h31 : (0x80000000 : Nat) = 1 * 2 ^ 31 := by norm_num
  rw [Nat.lor_comm, h31, mul_pow_lor_eq_add 1 31 h]
  omega

theorem lor_nibble_pack (bus d : Nat) (hd : d < 16) : bus <<< 4 ||| d = 16 * bus + d := by
  rw [Nat.shiftLeft_eq, mul_pow_lor_eq_add bus 4 (by omega)]
  omega

theorem len_to_dlc_le_15 : ∀ l, l ≤ 64 → len_to_dlc l ≤ 15 := by decide

/-! ## Claim theorems: outbound frame push layout (C5) -/

/-- C5: nothing is pushed to a client before its session is in binary state;
once it is, the pushed bytes are exactly `F1 00`, the 32-bit little-endian
microseconds since session start, the 32-bit little-endian arbitration
identifier with bit 31 set iff the frame is extended, one byte with the bus
number in the high nibble and the DLC (reverse mapping for FD) in the low
nibble, the unpadded payload, and a trailing `00`. -/
theorem claim_C5_push_layout (binary : Bool) (elapsedUs can_id bus : Nat)
    (data : List Nat) (is_fd : Bool) :
    (binary = false → send_frame binary elapsedUs can_id bus data is_fd = []) ∧
    (binary = true → bus < 16 →
      send_frame binary elapsedUs can_id bus data is_fd =
        [0xF1, 0x00]
        ++ toLE4 (elapsedUs % 2 ^ 32)
        ++ toLE4 (if can_id.testBit 31 then can_id % 2 ^ 29 + 2 ^ 31 else can_id % 2 ^ 11)
        ++ [16 * bus + (if is_fd then len_to_dlc (min data.length 64) else min data.length 8)]
        ++ data.take (if is_fd then min data.length 64 else min data.length 8)
        ++ [0x00]) := by
  constructor
  · intro h
    simp [send_frame, h]
  · intro hb hbus
    subst hb
    have harb : can_id % 2 ^ 29 < 2 ^ 31 := by
      have := Nat.mod_lt can_id (y := 2 ^ 29) (by norm_num)
      omega
    have hfd : len_to_dlc (min data.length 64) ≤ 15 := len_to_dlc_le_15 _ (by omega)
    simp only [send_frame, Bool.true_eq_false, if_false]
    rw [land_u32_mask, land_eff_flag_ne]
    cases is_fd <;> cases h31 : can_id.testBit 31 <;>
      simp only [Bool.false_eq_true, if_false, eq_self_iff_true, if_true, Nat.or_zero]
    · rw [land_sff_mask, land_nibble, land_nibble, Nat.mod_eq_of_lt hbus,
        Nat.mod_eq_of_lt (show min data.length 8 < 16 by omega),
        lor_nibble_pack bus _ (by omega)]
    · rw [land_eff_mask, lor_high_bit harb, land_nibble, land_nibble, Nat.mod_eq_of_lt hbus,
        Nat.mod_eq_of_lt (show min data.length 8 < 16 by omega),
        lor_nibble_pack bus _ (by omega)]
    · rw [land_sff_mask, land_nibble, land_nibble, Nat.mod_eq_of_lt hbus,
        Nat.mod_eq_of_lt (show len_to_dlc (min data.length 64) < 16 by omega),
        lor_nibble_pack bus _ (by omega)]
    · rw [land_eff_mask, lor_high_bit harb, land_nibble, land_nibble, Nat.mod_eq_of_lt hbus,
        Nat.mod_eq_of_lt (show len_to_dlc (min data.length 64) < 16 by omega),
        lor_nibble_pack bus _ (by omega)]

/-- Witness: C5 applied to a concrete classic frame on bus 2. -/
theorem claim_C5_push_layout_witness :
    send_frame false 5 0x123 2 [0xAA] false = [] ∧
    send_frame true 5 0x123 2 [0xAA] false =
      [0xF1, 0x00, 5, 0, 0, 0, 0x23, 0x01, 0, 0, 0x21, 0xAA, 0x00] := by
  refine ⟨(claim_C5_push_layout false 5 0x123 2 [0xAA] false).1 rfl, ?_⟩
  rw [(claim_C5_push_layout true 5 0x123 2 [0xAA] false).2 rfl (by decide)]
  decide

/-! ## Lemmas for the codec round trip -/

theorem land_pow_ne (x m : Nat) : decide (x &&& 2 ^ m ≠ 0) = x.testBit m := by
  rw [land_two_pow]
  by_cases h : x.testBit m
  · have h2 : (2 : Nat) ^ m ≠ 0 := by positivity
    simp [h, h2]
  · simp [h]

theorem land_rtr_flag_ne (x : Nat) : decide (x &&& CAN_RTR_FLAG ≠ 0) = x.testBit 30 := by
  have h : CAN_RTR_FLAG = 2 ^ 30 := by norm_num [CAN_RTR_FLAG]
  rw [h, land_pow_ne]

theorem land_err_flag_ne (x : Nat) : decide (x &&& CAN_ERR_FLAG ≠ 0) = x.testBit 29 := by
  have h : CAN_ERR_FLAG = 2 ^ 29 := by norm_num [CAN_ERR_FLAG]
  rw [h, land_pow_ne]

theorem lor_err_case (arb : Nat) (h : arb < 2 ^ 29) :
    arb ||| CAN_ERR_FLAG = arb + 2 ^ 29 := by
  rw [Nat.or_comm, (by decide : CAN_ERR_FLAG = 1 * 2 ^ 29), mul_pow_lor_eq_add 1 29 h]
  omega

theorem lor_rtr_case (arb : Nat) (h : arb < 2 ^ 29) :
    arb ||| CAN_RTR_FLAG = arb + 2 ^ 30 := by
  rw [Nat.or_comm, (by decide : CAN_RTR_FLAG = 2 * 2 ^ 29), mul_pow_lor_eq_add 2 29 h]
  omega

theorem lor_rtr_err_case (arb : Nat) (h : arb < 2 ^ 29) :
    arb ||| CAN_RTR_FLAG ||| CAN_ERR_FLAG = arb + 2 ^ 30 + 2 ^ 29 := by
  rw [Nat.or_assoc, Nat.or_comm,
    (by decide : (CAN_RTR_FLAG ||| CAN_ERR_FLAG : Nat) = 3 * 2 ^ 29),
    mul_pow_lor_eq_add 3 29 h]
  omega

theorem lor_eff_case (arb : Nat) (h : arb < 2 ^ 29) :
    arb ||| CAN_EFF_FLAG = arb + 2 ^ 31 := by
  rw [Nat.or_comm, (by decide : CAN_EFF_FLAG = 4 * 2 ^ 29), mul_pow_lor_eq_add 4 29 h]
  omega

theorem lor_eff_err_case (arb : Nat) (h : arb < 2 ^ 29) :
    arb ||| CAN_EFF_FLAG ||| CAN_ERR_FLAG = arb + 2 ^ 31 + 2 ^ 29 := by
  rw [Nat.or_assoc, Nat.or_comm,
    (by decide : (CAN_EFF_FLAG ||| CAN_ERR_FLAG : Nat) = 5 * 2 ^ 29),
    mul_pow_lor_eq_add 5 29 h]
  omega

theorem lor_eff_rtr_case (arb : Nat) (h : arb < 2 ^ 29) :
    arb ||| CAN_EFF_FLAG ||| CAN_RTR_FLAG = arb + 2 ^ 31 + 2 ^ 30 := by
  rw [Nat.or_assoc, Nat.or_comm,
    (by decide : (CAN_EFF_FLAG ||| CAN_RTR_FLAG : Nat) = 6 * 2 ^ 29),
    mul_pow_lor_eq_add 6 29 h]
  omega

theorem lor_eff_rtr_err_case (arb : Nat) (h : arb < 2 ^ 29) :
    arb ||| CAN_EFF_FLAG ||| CAN_RTR_FLAG ||| CAN_ERR_FLAG = arb + 2 ^ 31 + 2 ^ 30 + 2 ^ 29 := by
  rw [Nat.or_assoc, Nat.or_assoc, Nat.or_comm,
    (by decide : (CAN_EFF_FLAG ||| (CAN_RTR_FLAG ||| CAN_ERR_FLAG) : Nat) = 7 * 2 ^ 29),
    mul_pow_lor_eq_add 7 29 h]
  omega

theorem canid_ff (arb : Nat) (er : Bool) (h : arb < 2 ^ 29) :
    arb ||| 0 ||| 0 ||| (if er then CAN_ERR_FLAG else 0) =
      arb + 0 + 0 + (if er then 2 ^ 29 else 0) := by
  cases er
  · show arb ||| 0 ||| 0 ||| 0 = arb + 0 + 0 + 0
    rw [Nat.or_zero, Nat.or_zero, Nat.or_zero]
    omega
  · show arb ||| 0 ||| 0 ||| CAN_ERR_FLAG = arb + 0 + 0 + 2 ^ 29
    rw [Nat.or_zero, Nat.or_zero, lor_err_case arb h]
    omega

theorem canid_ft (arb : Nat) (er : Bool) (h : arb < 2 ^ 29) :
    arb ||| 0 ||| CAN_RTR_FLAG ||| (if er then CAN_ERR_FLAG else 0) =
      arb + 0 + 2 ^ 30 + (if er then 2 ^ 29 else 0) := by
  cases er
  · show arb ||| 0 ||| CAN_RTR_FLAG ||| 0 = arb + 0 + 2 ^ 30 + 0
    rw [Nat.or_zero, Nat.or_zero, lor_rtr_case arb h]
    omega
  · show arb ||| 0 ||| CAN_RTR_FLAG ||| CAN_ERR_FLAG = arb + 0 + 2 ^ 30 + 2 ^ 29
    rw [Nat.or_zero, lor_rtr_err_case arb h]
    omega

theorem canid_tf (arb : Nat) (er : Bool) (h : arb < 2 ^ 29) :
    arb ||| CAN_EFF_FLAG ||| 0 ||| (if er then CAN_ERR_FLAG else 0) =
      arb + 2 ^ 31 + 0 + (if er then 2 ^ 29 else 0) := by
  cases er
  · show arb ||| CAN_EFF_FLAG ||| 0 ||| 0 = arb + 2 ^ 31 + 0 + 0
    rw [Nat.or_zero, Nat.or_zero, lor_eff_case arb h]
    omega
  · show arb ||| CAN_EFF_FLAG ||| 0 ||| CAN_ERR_FLAG = arb + 2 ^ 31 + 0 + 2 ^ 29
    rw [Nat.or_zero, lor_eff_err_case arb h]
    omega

theorem canid_tt (arb : Nat) (er : Bool) (h : arb < 2 ^ 29) :
    arb ||| CAN_EFF_FLAG ||| CAN_RTR_FLAG ||| (if er then CAN_ERR_FLAG else 0) =
      arb + 2 ^ 31 + 2 ^ 30 + (if er then 2 ^ 29 else 0) := by
  cases er
  · show arb ||| CAN_EFF_FLAG ||| CAN_RTR_FLAG ||| 0 = arb + 2 ^ 31 + 2 ^ 30 + 0
    rw [Nat.or_zero, lor_eff_rtr_case arb h]
    omega
  · show arb ||| CAN_EFF_FLAG ||| CAN_RTR_FLAG ||| CAN_ERR_FLAG = arb + 2 ^ 31 + 2 ^ 30 + 2 ^ 29
    exact lor_eff_rtr_err_case arb h

theorem canid_f (arb : Nat) (r er : Bool) (h : arb < 2 ^ 29) :
    arb ||| 0 ||| (if r then CAN_RTR_FLAG else 0) ||| (if er then CAN_ERR_FLAG else 0) =
      arb + 0 + (if r then 2 ^ 30 else 0) + (if er then 2 ^ 29 else 0) := by
  cases r
  · exact canid_ff arb er h
  · exact canid_ft arb er h

theorem canid_t (arb : Nat) (r er : Bool) (h : arb < 2 ^ 29) :
    arb ||| CAN_EFF_FLAG ||| (if r then CAN_RTR_FLAG else 0)
      ||| (if er then CAN_ERR_FLAG else 0) =
      arb + 2 ^ 31 + (if r then 2 ^ 30 else 0) + (if er then 2 ^ 29 else 0) := by
  cases r
  · exact canid_tf arb er h
  · exact canid_tt arb er h

theorem mkCanId_eq (f : Frame) (h : f.arb < 2 ^ 29) :
    mkCanId f = f.arb + (if f.ext then 2 ^ 31 else 0) + (if f.rtr then 2 ^ 30 else 0)
      + (if f.err then 2 ^ 29 else 0) := by
  rcases f with ⟨e, r, er, fdv, b, s, arb, d⟩
  simp only at h
  unfold mkCanId
  cases e
  · exact canid_f arb r er h
  · exact canid_t arb r er h

theorem canid_bits (arb : Nat) (e r er : Bool) (h : arb < 2 ^ 29) :
    Nat.testBit (arb + (if e then 2 ^ 31 else 0) + (if r then 2 ^ 30 else 0)
      + (if er then 2 ^ 29 else 0)) 31 = e ∧
    Nat.testBit (arb + (if e then 2 ^ 31 else 0) + (if r then 2 ^ 30 else 0)
      + (if er then 2 ^ 29 else 0)) 30 = r ∧
    Nat.testBit (arb + (if e then 2 ^ 31 else 0) + (if r then 2 ^ 30 else 0)
      + (if er then 2 ^ 29 else 0)) 29 = er := by
  rw [Nat.testBit_to_div_mod, Nat.testBit_to_div_mod, Nat.testBit_to_div_mod]
  cases e <;> cases r <;> cases er <;> simp <;> omega

theorem canid_mod29 (arb : Nat) (e r er : Bool) (h : arb < 2 ^ 29) :
    (arb + (if e then 2 ^ 31 else 0) + (if r then 2 ^ 30 else 0)
      + (if er then 2 ^ 29 else 0)) % 2 ^ 29 = arb := by
  cases e <;> cases r <;> cases er <;> simp <;> omega

theorem canid_mod11 (arb : Nat) (e r er : Bool) (h : arb < 2 ^ 11) :
    (arb + (if e then 2 ^ 31 else 0) + (if r then 2 ^ 30 else 0)
      + (if er then 2 ^ 29 else 0)) % 2 ^ 11 = arb := by
  cases e <;> cases r <;> cases er <;> simp <;> omega

theorem canid_lt32 (arb : Nat) (e r er : Bool) (h : arb < 2 ^ 29) :
    arb + (if e then 2 ^ 31 else 0) + (if r then 2 ^ 30 else 0)
      + (if er then 2 ^ 29 else 0) < 2 ^ 32 := by
  cases e <;> cases r <;> cases er <;> simp <;> omega

theorem fromLE4_toLE4 (n : Nat) (h : n < 2 ^ 32) :
    fromLE4 (n % 256) (n / 256 % 256) (n / 65536 % 256) (n / 16777216 % 256) = n := by
  unfold fromLE4
  omega

theorem canfd_decode_parts (c : Nat) (d : List Nat) :
    (canfdFrameBytes c d).getD 0 0 = c % 256 ∧
    (canfdFrameBytes c d).getD 1 0 = c / 256 % 256 ∧
    (canfdFrameBytes c d).getD 2 0 = c / 65536 % 256 ∧
    (canfdFrameBytes c d).getD 3 0 = c / 16777216 % 256 ∧
    (canfdFrameBytes c d).getD 4 0 = min d.length 64 ∧
    (canfdFrameBytes c d).getD 5 0 = 0 ∧
    (canfdFrameBytes c d).drop 8 = d.take 64 ++ List.replicate (64 - min d.length 64) 0 :=
  ⟨rfl, rfl, rfl, rfl, rfl, rfl, rfl⟩

theorem can_decode_parts (c : Nat) (d : List Nat) :
    (canFrameBytes c d).getD 0 0 = c % 256 ∧
    (canFrameBytes c d).getD 1 0 = c / 256 % 256 ∧
    (canFrameBytes c d).getD 2 0 = c / 65536 % 256 ∧
    (canFrameBytes c d).getD 3 0 = c / 16777216 % 256 ∧
    (canFrameBytes c d).getD 4 0 = min d.length 8 ∧
    (canFrameBytes c d).drop 8 = d.take 8 ++ List.replicate (8 - min d.length 8) 0 :=
  ⟨rfl, rfl, rfl, rfl, rfl, rfl⟩

theorem canfd_length (c : Nat) (d : List Nat) (h : d.length ≤ 64) :
    (canfdFrameBytes c d).length = 72 := by
  simp [canfdFrameBytes, toLE4, List.length_take, List.length_replicate]
  omega

theorem can_length (c : Nat) (d : List Nat) :
    (canFrameBytes c d).length = 16 := by
  simp [canFrameBytes, toLE4, List.length_take, List.length_replicate]
  omega

/-! ## Claim theorems: codec round trip (C3) -/

/-- C3 counterexample: the transmit encoder writes a zero FD-flags byte, so
an FD Frame with the bit-rate-switch flag set (and satisfying every §3
invariant) does not survive the encode/decode round trip: the decoded
frame has BRS clear, and the round trip is not the identity. -/
theorem claim_C3_counterexample :
    Option.map Frame.brs (decodeFrame (encodeFrame true brsFrame)) = some false ∧
    brsFrame.brs = true ∧
    decodeFrame (encodeFrame true brsFrame) ≠ some brsFrame := by
  refine ⟨by decide, by decide, by decide⟩

/-- C3 amended: for every Frame satisfying the §3 invariants whose BRS and
ESI flags are clear (the transmit encoder always writes a zero FD-flags
byte, so those two flags are not representable on the encode side),
encoding to the 16-byte classic or 72-byte FD kernel layout and decoding
that layout restores every semantic field: identifier, extended/RTR/error
flags, FD flag, BRS/ESI flags, data length and payload. -/
theorem claim_C3_codec_roundtrip (f : Frame) (hInv : FrameInv f)
    (hbrs : f.brs = false) (hesi : f.esi = false) :
    decodeFrame (encodeFrame true f) = some f := by
  obtain ⟨hfd, hcl, hE, hS, _hrtr, _hbytes⟩ := hInv
  rcases f with ⟨e, r, er, fdv, bb, ss, arb, d⟩
  simp only at hfd hcl hE hS hbrs hesi
  subst hbrs
  subst hesi
  have harb : arb < 2 ^ 29 := by
    cases hx : e
    · have := hS hx
      omega
    · exact hE hx
  have hc : mkCanId ⟨e, r, er, fdv, false, false, arb, d⟩ =
      arb + (if e then 2 ^ 31 else 0) + (if r then 2 ^ 30 else 0)
        + (if er then 2 ^ 29 else 0) := by
    have h0 := mkCanId_eq ⟨e, r, er, fdv, false, false, arb, d⟩ harb
    simpa using h0
  have hclt : mkCanId ⟨e, r, er, fdv, false, false, arb, d⟩ < 2 ^ 32 := by
    rw [hc]
    exact canid_lt32 arb e r er harb
  cases fdv
  · -- classic path
    have hd8 : d.length ≤ 8 := hcl rfl
    have henc : encodeFrame true ⟨e, r, er, false, false, false, arb, d⟩ =
        canFrameBytes (mkCanId ⟨e, r, er, false, false, false, arb, d⟩) d := by
      simp [encodeFrame]
    rw [henc]
    have h16 := can_length (mkCanId ⟨e, r, er, false, false, false, arb, d⟩) d
    unfold decodeFrame
    rw [if_neg (by rw [h16]; omega), if_pos h16]
    rw [(can_decode_parts _ d).1, (can_decode_parts _ d).2.1,
      (can_decode_parts _ d).2.2.1, (can_decode_parts _ d).2.2.2.1,
      (can_decode_parts _ d).2.2.2.2.1, (can_decode_parts _ d).2.2.2.2.2,
      fromLE4_toLE4 _ hclt]
    have hm : min d.length 8 = d.length := min_eq_left hd8
    rw [hm, min_eq_left hd8, List.take_of_length_le hd8, List.take_left]
    congr 1
    unfold mkFrame
    simp only [Frame.mk.injEq]
    rw [land_eff_flag_ne, land_rtr_flag_ne, land_err_flag_ne, hc]
    refine ⟨(canid_bits arb e r er harb).1, (canid_bits arb e r er harb).2.1,
      (canid_bits arb e r er harb).2.2, trivial, by decide, by decide, ?_, trivial⟩
    rw [(canid_bits arb e r er harb).1]
    cases hx : e
    · show (arb + (if false then 2 ^ 31 else 0) + (if r then 2 ^ 30 else 0)
        + (if er then 2 ^ 29 else 0)) &&& CAN_SFF_MASK = arb
      rw [land_sff_mask]
      exact canid_mod11 arb false r er (hS hx)
    · show (arb + (if true then 2 ^ 31 else 0) + (if r then 2 ^ 30 else 0)
        + (if er then 2 ^ 29 else 0)) &&& CAN_EFF_MASK = arb
      rw [land_eff_mask]
      exact canid_mod29 arb true r er harb
  · -- FD path
    have hd64 : d.length ≤ 64 := by
      have hm := hfd rfl
      have hall : ∀ n ∈ CAN_FD_DLC_LEN, n ≤ 64 := by decide
      exact hall _ hm
    have henc : encodeFrame true ⟨e, r, er, true, false, false, arb, d⟩ =
        canfdFrameBytes (mkCanId ⟨e, r, er, true, false, false, arb, d⟩) d := by
      simp [encodeFrame]
    rw [henc]
    have h72 := canfd_length (mkCanId ⟨e, r, er, true, false, false, arb, d⟩) d hd64
    unfold decodeFrame
    rw [if_pos h72]
    rw [(canfd_decode_parts _ d).1, (canfd_decode_parts _ d).2.1,
      (canfd_decode_parts _ d).2.2.1, (canfd_decode_parts _ d).2.2.2.1,
      (canfd_decode_parts _ d).2.2.2.2.1, (canfd_decode_parts _ d).2.2.2.2.2.1,
      (canfd_decode_parts _ d).2.2.2.2.2.2,
      fromLE4_toLE4 _ hclt]
    rw [min_eq_left hd64, List.take_of_length_le hd64, List.take_left]
    congr 1
    unfold mkFrame
    simp only [Frame.mk.injEq]
    rw [land_eff_flag_ne, land_rtr_flag_ne, land_err_flag_ne, hc]
    refine ⟨(canid_bits arb e r er harb).1, (canid_bits arb e r er harb).2.1,
      (canid_bits arb e r er harb).2.2, trivial, by decide, by decide, ?_, trivial⟩
    rw [(canid_bits arb e r er harb).1]
    cases hx : e
    · show (arb + (if false then 2 ^ 31 else 0) + (if r then 2 ^ 30 else 0)
        + (if er then 2 ^ 29 else 0)) &&& CAN_SFF_MASK = arb
      rw [land_sff_mask]
      exact canid_mod11 arb false r er (hS hx)
    · show (arb + (if true then 2 ^ 31 else 0) + (if r then 2 ^ 30 else 0)
        + (if er then 2 ^ 29 else 0)) &&& CAN_EFF_MASK = arb
      rw [land_eff_mask]
      exact canid_mod29 arb true r er harb

/-- Witness: C3 amended applied to a concrete extended FD frame with
twelve payload bytes. -/
theorem claim_C3_codec_roundtrip_witness :
    decodeFrame (encodeFrame true fdOkFrame) = some fdOkFrame :=
  claim_C3_codec_roundtrip fdOkFrame
    ⟨by decide, by decide, by decide, by decide, by decide, by decide⟩ rfl rfl

/-! ## Lemmas about the receive loop -/

theorem length_dropWhile_le (p : Nat → Bool) (l : List Nat) :
    (l.dropWhile p).length ≤ l.length := by
  induction l with
  | nil => simp
  | cons a t ih =>
      by_cases h : p a
      · rw [List.dropWhile_cons_of_pos h]
        simp
        omega
      · rw [List.dropWhile_cons_of_neg h]

theorem findE7E7_le : ∀ (buf : List Nat) (i : Nat), findE7E7 buf = some i → i + 2 ≤ buf.length
  | [], i, h => by simp [findE7E7] at h
  | [a], i, h => by simp [findE7E7] at h
  | a :: b :: rest, i, h => by
      by_cases hab : a = 0xE7 ∧ b = 0xE7
      · simp [findE7E7, hab] at h
        simp [← h]
      · simp only [findE7E7, if_neg hab, Option.map_eq_some'] at h
        obtain ⟨j, hj, hji⟩ := h
        have := findE7E7_le (b :: rest) j hj
        simp at this ⊢
        omega

theorem findE7E7_cons_ne (x : Nat) (hx : x ≠ 0xE7) (l : List Nat) :
    findE7E7 (x :: l) = (findE7E7 l).map (fun i => i + 1) := by
  cases l with
  | nil => simp [findE7E7]
  | cons b t => simp [findE7E7, hx]

theorem findE7E7_none_tail {a : Nat} {l : List Nat} (h : findE7E7 (a :: l) = none) :
    findE7E7 l = none := by
  cases l with
  | nil => simp [findE7E7]
  | cons b t =>
      by_cases hab : a = 0xE7 ∧ b = 0xE7
      · simp [findE7E7, hab] at h
      · simp only [findE7E7, if_neg hab, Option.map_eq_none'] at h
        exact h

theorem findE7E7_pair_head (s : List Nat) : findE7E7 (0xE7 :: 0xE7 :: s) = some 0 := by
  simp [findE7E7]

theorem findE7E7_cons_cases (a : Nat) (b : Nat) (t : List Nat) :
    findE7E7 (a :: b :: t) = some 0 ∨
      findE7E7 (a :: b :: t) = (findE7E7 (b :: t)).map (fun i => i + 1) := by
  by_cases hab : a = 0xE7 ∧ b = 0xE7
  · exact Or.inl (by simp [findE7E7, hab])
  · exact Or.inr (by simp [findE7E7, hab])

theorem findE7E7_append_some :
    ∀ (p s : List Nat), ∃ i, findE7E7 (p ++ 0xE7 :: 0xE7 :: s) = some i ∧ i ≤ p.length
  | [], s => ⟨0, by simp [findE7E7_pair_head], by simp⟩
  | a :: p', s => by
      obtain ⟨i, hi, hip⟩ := findE7E7_append_some p' s
      have hsh : ∃ b t, p' ++ 0xE7 :: 0xE7 :: s = b :: t := by
        cases hp : p' ++ 0xE7 :: 0xE7 :: s with
        | nil => exact absurd hp (by simp)
        | cons b t => exact ⟨b, t, rfl⟩
      obtain ⟨b, t, hbt⟩ := hsh
      rcases findE7E7_cons_cases a b t with h0 | hmap
      · refine ⟨0, ?_, by simp⟩
        rw [List.cons_append, hbt]
        exact h0
      · refine ⟨i + 1, ?_, by simp; omega⟩
        rw [List.cons_append, hbt, hmap, ← hbt, hi]
        rfl

theorem hsLoopF_none (f : Nat) (buf : List Nat) (h : findE7E7 buf = none) :
    hsLoopF f buf = (buf, false) := by
  cases f <;> simp [hsLoopF, h]

theorem hsLoopF_through_pair :
    ∀ (n : Nat) (p s : List Nat) (f : Nat), p.length ≤ n → findE7E7 s = none →
      p.length + 2 + s.length ≤ f →
      ∃ t, hsLoopF f (p ++ 0xE7 :: 0xE7 :: s) = (t, true) ∧
        t.dropWhile notF1 = s.dropWhile notF1 ∧ s.length ≤ t.length + 1 := by
  intro n
  induction n with
  | zero =>
      intro p s f hp hs hf
      have hp0 : p = [] := List.length_eq_zero.mp (by omega)
      subst hp0
      simp only [List.nil_append] at hf ⊢
      obtain ⟨f', rfl⟩ : ∃ f', f = f' + 1 := ⟨f - 1, by simp at hf; omega⟩
      refine ⟨s, ?_, rfl, by omega⟩
      simp only [hsLoopF, findE7E7_pair_head]
      rw [List.drop_succ_cons, List.drop_succ_cons, List.drop_zero,
        hsLoopF_none f' s hs]
  | succ n ih =>
      intro p s f hp hs hf
      obtain ⟨i, hfind, hip⟩ := findE7E7_append_some p s
      obtain ⟨f', rfl⟩ : ∃ f', f = f' + 1 := ⟨f - 1, by omega⟩
      simp only [hsLoopF, hfind]
      by_cases hcase : i + 2 ≤ p.length
      · -- the occurrence lies inside p
        have hdrop : (p ++ 0xE7 :: 0xE7 :: s).drop (i + 2) =
            p.drop (i + 2) ++ 0xE7 :: 0xE7 :: s :=
          List.drop_append_of_le_length hcase
        have hlen' : (p.drop (i + 2)).length ≤ n := by
          simp [List.length_drop]
          omega
        have hfuel' : (p.drop (i + 2)).length + 2 + s.length ≤ f' := by
          simp only [List.length_drop]
          omega
        obtain ⟨t, ht, hdw, hsl⟩ := ih (p.drop (i + 2)) s f' hlen' hs hfuel'
        rw [hdrop, ht]
        exact ⟨t, rfl, hdw, hsl⟩
      · by_cases hcase2 : i = p.length
        · -- the occurrence is exactly the explicit pair
          subst hcase2
          have hdrop : (p ++ 0xE7 :: 0xE7 :: s).drop (p.length + 2) = s := by
            rw [List.drop_append 2]
            rfl
          rw [hdrop, hsLoopF_none f' s hs]
          exact ⟨s, rfl, rfl, by omega⟩
        · -- the occurrence straddles the last byte of p and the first E7
          have hip1 : p.length = i + 1 := by omega
          have hdrop : (p ++ 0xE7 :: 0xE7 :: s).drop (i + 2) = 0xE7 :: s := by
            have h1 : i + 2 = p.length + 1 := by omega
            rw [h1, List.drop_append 1]
            rfl
          rw [hdrop]
          cases s with
          | nil =>
              have hone : findE7E7 [0xE7] = none := by simp [findE7E7]
              rw [hsLoopF_none f' _ hone]
              exact ⟨[0xE7], rfl, rfl, by simp⟩
          | cons b s' =>
              by_cases hb : b = 0xE7
              · subst hb
                have hs' : findE7E7 s' = none := findE7E7_none_tail hs
                obtain ⟨f'', rfl⟩ : ∃ f'', f' = f'' + 1 := by
                  refine ⟨f' - 1, ?_⟩
                  simp [List.length_append] at hf
                  omega
                simp only [hsLoopF, findE7E7_pair_head]
                rw [List.drop_succ_cons, List.drop_succ_cons, List.drop_zero,
                  hsLoopF_none f'' s' hs']
                refine ⟨s', rfl, ?_, by simp⟩
                rw [List.dropWhile_cons_of_pos (by decide : notF1 0xE7 = true)]
              · have hnone : findE7E7 (0xE7 :: b :: s') = none := by
                  simp [findE7E7, hb, hs]
                rw [hsLoopF_none f' _ hnone]
                refine ⟨0xE7 :: b :: s', rfl, ?_, by simp⟩
                rw [List.dropWhile_cons_of_pos (by decide : notF1 0xE7 = true)]

theorem tryConsume_some_len {b : List Nat} {ev : OutEvent} {rest : List Nat}
    (h : tryConsumeSendFrame b = some (ev, rest)) : rest.length + 8 ≤ b.length := by
  unfold tryConsumeSendFrame at h
  split at h
  · exact absurd h (by simp)
  · split at h
    · exact absurd h (by simp)
    · dsimp only at h
      split at h
      · exact absurd h (by simp)
      · rename_i h8 hsig hneed
        rw [Option.some.injEq, Prod.mk.injEq] at h
        obtain ⟨-, h2⟩ := h
        rw [← h2]
        simp only [List.length_drop]
        omega

theorem goBin_dropWhile_congr (bc : Nat) (speeds : List Nat) (e : Nat) (f : Nat)
    {l1 l2 : List Nat} (h : l1.dropWhile notF1 = l2.dropWhile notF1) :
    goBin bc speeds e f l1 = goBin bc speeds e f l2 := by
  cases f <;> simp only [goBin] <;> rw [h]

theorem goBin_fuel_congr (bc : Nat) (speeds : List Nat) (e : Nat) :
    ∀ (n : Nat) (buf : List Nat) (f g : Nat),
      buf.length ≤ n → buf.length ≤ f → buf.length ≤ g →
      goBin bc speeds e f buf = goBin bc speeds e g buf := by
  intro n
  induction n with
  | zero =>
      intro buf f g h0 hf hg
      have hnil : buf = [] := List.length_eq_zero.mp (by omega)
      subst hnil
      cases f <;> cases g <;> simp [goBin]
  | succ n ih =>
      intro buf f g h0 hf hg
      cases f with
      | zero =>
          have hnil : buf = [] := List.length_eq_zero.mp (by omega)
          subst hnil
          cases g <;> simp [goBin]
      | succ f' =>
          cases g with
          | zero =>
              have hnil : buf = [] := List.length_eq_zero.mp (by omega)
              subst hnil
              simp [goBin]
          | succ g' =>
              simp only [goBin]
              have hble : (buf.dropWhile notF1).length ≤ buf.length :=
                length_dropWhile_le _ _
              by_cases hb2 : (buf.dropWhile notF1).length < 2
              · simp [hb2]
              · simp only [if_neg hb2]
                by_cases hcmd : (buf.dropWhile notF1).getD 1 0 = 0x00
                · simp only [if_pos hcmd]
                  cases htc : tryConsumeSendFrame (buf.dropWhile notF1) with
                  | none => simp
                  | some pr =>
                      obtain ⟨ev, rest⟩ := pr
                      have hrl := tryConsume_some_len htc
                      have hrec := ih rest f' g' (by omega) (by omega) (by omega)
                      simp [hrec]
                · simp only [if_neg hcmd]
                  cases hdp : dispatchCmd bc speeds e ((buf.dropWhile notF1).getD 1 0) with
                  | crash => simp
                  | events evs =>
                      have hlen2 : ((buf.dropWhile notF1).drop 2).length ≤ buf.length - 2 := by
                        simp only [List.length_drop]
                        omega
                      have hrec := ih ((buf.dropWhile notF1).drop 2) f' g'
                        (by omega) (by omega) (by omega)
                      simp [hrec]

theorem parseBinary_congr (bc : Nat) (speeds : List Nat) (e : Nat) {t s : List Nat}
    (hdw : t.dropWhile notF1 = s.dropWhile notF1) (hlen : s.length ≤ t.length + 1) :
    parseBinary bc speeds e t = parseBinary bc speeds e s := by
  unfold parseBinary
  rw [goBin_dropWhile_congr bc speeds e (t.length + 1) hdw]
  exact goBin_fuel_congr bc speeds e (max (t.length + 1) (s.length + 1)) s
    (t.length + 1) (s.length + 1) (by omega) (by omega) (by omega)

/-- Witness: C7 amended applied to a two-bus, two-interface session. -/
theorem claim_C7_amended_witness :
    canbusParamsResp 2 [500000, 250000] =
      some ([0xF1, 0x06]
        ++ [if 1 ≤ 2 then 1 else 0]
        ++ toLE4 (if 1 ≤ 2 then List.getD [500000, 250000] 0 0 else 0)
        ++ [if 2 ≤ 2 then 1 else 0]
        ++ toLE4 (if 2 ≤ 2 then List.getD [500000, 250000] 1 0 else 0)) :=
  claim_C7_amended 2 [500000, 250000] (by decide) (by decide)

/-- C9: a fresh session (ascii state) fed `XX E7` with `XX ≠ E7` emits
nothing, stays in ascii state and keeps both bytes buffered; fed
`XX E7 E7 F1 09` it silently discards the leading byte and the `E7 E7`
pair, transitions to binary, and the `F1 09` request yields exactly the
response `F1 09 DE AD`. -/
theorem claim_C9_handshake (bc : Nat) (speeds : List Nat) (e : Nat) (x : Nat)
    (hx : x ≠ 0xE7) :
    rxStep bc speeds e false [] [x, 0xE7] = (false, ⟨[x, 0xE7], [], false⟩) ∧
    rxStep bc speeds e false [] [x, 0xE7, 0xE7, 0xF1, 0x09] =
      (true, ⟨[], [.resp keepaliveResp], false⟩) := by
  constructor
  · have h1 : findE7E7 [x, 0xE7] = none := by
      rw [findE7E7_cons_ne x hx]
      simp [findE7E7]
    have h2 : hsLoop [x, 0xE7] = ([x, 0xE7], false) := hsLoopF_none _ _ h1
    simp [rxStep, h2]
  · have hs : findE7E7 [0xF1, 0x09] = none := by decide
    obtain ⟨t, ht, hdw, hlen⟩ :=
      hsLoopF_through_pair 1 [x] [0xF1, 0x09] 5 (by simp) hs (by simp)
    have hh : hsLoop [x, 0xE7, 0xE7, 0xF1, 0x09] = (t, true) := by
      unfold hsLoop
      simpa using ht
    have hpc : parseBinary bc speeds e t = parseBinary bc speeds e [0xF1, 0x09] :=
      parseBinary_congr bc speeds e hdw hlen
    have hpb : parseBinary bc speeds e [0xF1, 0x09] =
        ⟨[], [.resp keepaliveResp], false⟩ := rfl
    simp [rxStep, hh, hpc, hpb]

/-- Witness: C9 applied at the leading byte `0x41`. -/
theorem claim_C9_handshake_witness :
    (0x41 : Nat) ≠ 0xE7 ∧
    (rxStep 1 [500000] 0 false [] [0x41, 0xE7] =
        (false, ⟨[0x41, 0xE7], [], false⟩) ∧
      rxStep 1 [500000] 0 false [] [0x41, 0xE7, 0xE7, 0xF1, 0x09] =
        (true, ⟨[], [.resp keepaliveResp], false⟩)) :=
  ⟨by decide, claim_C9_handshake 1 [500000] 0 0x41 (by decide)⟩

/-- C10: for a session already in binary state, all buffered bytes up to
and including an `E7 E7` pair are deleted before any request parsing, so a
complete binary request preceding the pair is silently discarded: feeding
`p ++ E7 E7 ++ s` (with no further pair in `s`) behaves exactly as feeding
`s` alone. -/
theorem claim_C10_binary_handshake_discard (bc : Nat) (speeds : List Nat) (e : Nat)
    (p s : List Nat) (hs : findE7E7 s = none) :
    rxStep bc speeds e true [] (p ++ 0xE7 :: 0xE7 :: s) =
      rxStep bc speeds e true [] s := by
  obtain ⟨t, ht, hdw, hlen⟩ :=
    hsLoopF_through_pair p.length p s (p ++ 0xE7 :: 0xE7 :: s).length
      le_rfl hs (by simp only [List.length_append, List.length_cons]; omega)
  have hh1 : hsLoop (p ++ 0xE7 :: 0xE7 :: s) = (t, true) := ht
  have hh2 : hsLoop s = (s, false) := hsLoopF_none s.length s hs
  have hpc : parseBinary bc speeds e t = parseBinary bc speeds e s :=
    parseBinary_congr bc speeds e hdw hlen
  simp [rxStep, hh1, hh2, hpc]

/-- Witness: C10 applied with a complete keepalive request (`F1 09`) before
the pair and a device-info request (`F1 07`) after it: the keepalive is
never answered. -/
theorem claim_C10_binary_handshake_discard_witness :
    findE7E7 [0xF1, 0x07] = none ∧
    rxStep 1 [500000] 0 true [] ([0xF1, 0x09] ++ 0xE7 :: 0xE7 :: [0xF1, 0x07]) =
      rxStep 1 [500000] 0 true [] [0xF1, 0x07] :=
  ⟨by decide,
    claim_C10_binary_handshake_discard 1 [500000] 0 [0xF1, 0x09] [0xF1, 0x07]
      (by decide)⟩

/-- C6 counterexample: the claim misreads the wire layout.  On the exact
bytes `F1 00 80 00 00 00 00 01 41 42 43 44` the identifier field is the
little-endian word at offsets 2-5, i.e. `0x80` (not `0x80000000`), and the
bus byte at offset 6 is `0x00`, so the frame goes to socket index 0 (not
1), is standard (extended flag clear, arbitration id `0x80`, not 0).  DLC 1
and payload `41` do hold. -/
theorem claim_C6_counterexample :
    rxStep 2 [500000, 500000] 0 true []
        [0xF1, 0x00, 0x80, 0x00, 0x00, 0x00, 0x00, 0x01, 0x41, 0x42, 0x43, 0x44] =
      (true, ⟨[], [.tx 0 0x80 [0x41]], false⟩) ∧
    (tx_can 0 2 false 7 0 0x80 [0x41] false).map TxCanResult.sockIdx = some 0 ∧
    (tx_can 0 2 false 7 0 0x80 [0x41] false).map (fun r => r.row.extended) =
      some false ∧
    (tx_can 0 2 false 7 0 0x80 [0x41] false).map (fun r => r.row.arb) = some 0x80 ∧
    (0 : Nat) ≠ 1 ∧ (0x80 : Nat) ≠ 0 :=
  ⟨rfl, rfl, rfl, rfl, by decide, by decide⟩

/-- C6 amended: on the bytes `F1 00 80 00 00 00 00 01 41 42 43 44` a binary
session parses id `0x80` (little-endian), bus 0, DLC clamped to 1, payload
`41`; the server writes a 16-byte classic frame (standard id `0x80`, dlc 1,
payload `41`) to the socket at index 0 and enqueues exactly one "tx" row. -/
theorem claim_C6_amended :
    rxStep 2 [500000, 500000] 0 true []
        [0xF1, 0x00, 0x80, 0x00, 0x00, 0x00, 0x00, 0x01, 0x41, 0x42, 0x43, 0x44] =
      (true, ⟨[], [.tx 0 0x80 [0x41]], false⟩) ∧
    tx_can 0 2 false 7 0 0x80 [0x41] false =
      some ⟨0, [0x80, 0, 0, 0, 1, 0, 0, 0, 0x41, 0, 0, 0, 0, 0, 0, 0],
        ⟨7, false, false, 0x80, none, 1, [0x41], 0, "tx"⟩⟩ :=
  ⟨rfl, rfl⟩

/-! ## Pipeline lemmas -/

theorem wtc_cEnq (s : PipeState) (c : List Nat) (b : Bool) :
    (wtc s c b).cEnq = s.cEnq := by
  cases b <;> simp [wtc]

theorem wtc_queue (s : PipeState) (c : List Nat) (b : Bool) :
    (wtc s c b).queue = s.queue := by
  cases b <;> simp [wtc]

theorem wtc_cWritten (s : PipeState) (c : List Nat) (b : Bool) :
    (wtc s c b).cWritten = s.cWritten := by
  cases b <;> simp [wtc]

theorem wtc_qfDrops (s : PipeState) (c : List Nat) (b : Bool) :
    (wtc s c b).qfDrops = s.qfDrops := by
  cases b <;> simp [wtc]

theorem wtc_mass (s : PipeState) (c : List Nat) (b : Bool) :
    (wtc s c b).spDrops + (wtc s c b).cache.length
      = s.spDrops + s.cache.length + c.length := by
  cases b <;> simp [wtc] <;> omega

theorem wtc_drops (s : PipeState) (c : List Nat) (b : Bool) :
    (wtc s c b).cDropped + s.spDrops = s.cDropped + (wtc s c b).spDrops := by
  cases b <;> simp [wtc] <;> omega

theorem drainQAux_fields (k : Nat) : ∀ (f : Nat) (l : List Nat) (fl : List Bool)
    (s : PipeState),
    (drainQAux k f l fl s).cEnq = s.cEnq ∧
    (drainQAux k f l fl s).queue = s.queue ∧
    (drainQAux k f l fl s).cWritten = s.cWritten ∧
    (drainQAux k f l fl s).qfDrops = s.qfDrops ∧
    (drainQAux k f l fl s).spDrops + (drainQAux k f l fl s).cache.length
      = s.spDrops + s.cache.length + l.length ∧
    (drainQAux k f l fl s).cDropped + s.spDrops
      = s.cDropped + (drainQAux k f l fl s).spDrops := by
  intro f
  induction f with
  | zero =>
      intro l fl s
      by_cases hl : l = []
      · subst hl
        simp [drainQAux]
      · simp only [drainQAux, if_neg hl]
        exact ⟨wtc_cEnq _ _ _, wtc_queue _ _ _, wtc_cWritten _ _ _,
          wtc_qfDrops _ _ _, wtc_mass _ _ _, wtc_drops _ _ _⟩
  | succ f ih =>
      intro l fl s
      by_cases hl : l = []
      · subst hl
        simp [drainQAux]
      · simp only [drainQAux, if_neg hl]
        obtain ⟨i1, i2, i3, i4, i5, i6⟩ :=
          ih (l.drop k) fl.tail (wtc s (l.take k) (fl.getD 0 false))
        have w1 := wtc_cEnq s (l.take k) (fl.getD 0 false)
        have w2 := wtc_queue s (l.take k) (fl.getD 0 false)
        have w3 := wtc_cWritten s (l.take k) (fl.getD 0 false)
        have w4 := wtc_qfDrops s (l.take k) (fl.getD 0 false)
        have w5 := wtc_mass s (l.take k) (fl.getD 0 false)
        have w6 := wtc_drops s (l.take k) (fl.getD 0 false)
        refine ⟨by rw [i1, w1], by rw [i2, w2], by rw [i3, w3], by rw [i4, w4],
          ?_, by omega⟩
        have hlt : (l.take k).length = min k l.length := List.length_take k l
        have hld : (l.drop k).length = l.length - k := List.length_drop k l
        omega

theorem drainQ_fields (p : PipeParams) (fulls : List Bool) (s : PipeState) :
    (drainQ p fulls s).cEnq = s.cEnq ∧
    (drainQ p fulls s).queue = [] ∧
    (drainQ p fulls s).cWritten = s.cWritten ∧
    (drainQ p fulls s).qfDrops = s.qfDrops ∧
    (drainQ p fulls s).spDrops + (drainQ p fulls s).cache.length
      = s.spDrops + s.cache.length + s.queue.length ∧
    (drainQ p fulls s).cDropped + s.spDrops
      = s.cDropped + (drainQ p fulls s).spDrops := by
  obtain ⟨h1, h2, h3, h4, h5, h6⟩ :=
    drainQAux_fields (max 1 p.batchSize) s.queue.length s.queue fulls
      { s with queue := [] }
  exact ⟨h1, h2, h3, h4, h5, h6⟩

theorem drainQ_inv (p : PipeParams) (fulls : List Bool) {s : PipeState}
    (h : InvPipe s) : InvPipe (drainQ p fulls s) := by
  obtain ⟨ha, hb⟩ := h
  obtain ⟨h1, h2, h3, h4, h5, h6⟩ := drainQ_fields p fulls s
  have h2' : (drainQ p fulls s).queue.length = 0 := by rw [h2]; rfl
  exact ⟨by omega, by omega⟩

theorem stepPipe_inv (p : PipeParams) (e : PipeEv) (s : PipeState)
    (hg : goodEv e = true) (h : InvPipe s) : InvPipe (stepPipe p s e) := by
  obtain ⟨h1, h2⟩ := h
  cases e with
  | enq =>
      simp only [stepPipe]
      split
      · refine ⟨?_, ?_⟩ <;> simp [List.length_append] <;> omega
      · refine ⟨?_, ?_⟩ <;> simp <;> omega
  | connectOk =>
      exact ⟨h1, h2⟩
  | connectFail fulls =>
      simp only [stepPipe]
      split
      · exact ⟨h1, h2⟩
      · exact drainQ_inv p fulls ⟨h1, h2⟩
  | overflowFlush fulls =>
      simp only [stepPipe]
      split
      · exact drainQ_inv p fulls ⟨h1, h2⟩
      · exact ⟨h1, h2⟩
  | cacheDrainOk =>
      simp only [stepPipe]
      split
      · refine ⟨?_, ?_⟩ <;> simp [List.length_drop] <;> omega
      · exact ⟨h1, h2⟩
  | cacheDrainFail full fulls =>
      simp [goodEv] at hg
  | memOk =>
      simp only [stepPipe]
      split
      · refine ⟨?_, ?_⟩ <;> simp [List.length_drop] <;> omega
      · exact ⟨h1, h2⟩
  | memFail full fulls =>
      simp only [stepPipe]
      split
      · refine drainQ_inv p fulls ?_
        cases full <;>
          refine ⟨?_, ?_⟩ <;>
            simp [wtc, List.length_take, List.length_drop, List.length_append] <;>
            omega
      · exact ⟨h1, h2⟩

theorem runPipe_inv (p : PipeParams) (evs : List PipeEv)
    (hg : ∀ e ∈ evs, goodEv e = true) : InvPipe (runPipe p evs) := by
  have main : ∀ (l : List PipeEv) (s : PipeState), (∀ e ∈ l, goodEv e = true) →
      InvPipe s → InvPipe (l.foldl (stepPipe p) s) := by
    intro l
    induction l with
    | nil => intro s _ h; exact h
    | cons e t ih =>
        intro s hgl h
        exact ih (stepPipe p s e) (fun x hx => hgl x (List.mem_cons_of_mem _ hx))
          (stepPipe_inv p e s (hgl e (List.mem_cons_self _ _)) h)
  exact main evs initPipe hg ⟨rfl, rfl⟩

/-- C1: the order-preservation claim fails in the code: when a cache-drain
insert raises, the rows just read (but not yet deleted) are re-appended to
the spill store by the exception handler, duplicating them.  On the trace
below, entries 0 and 1 are enqueued, spilled while disconnected, and the
first drain batch for entry 0 fails; the store then holds 0,1,0 and the
subsequent successful drains commit `[0, 1, 0]`: entry 0 is committed again
after entry 1, so the commit order is not the enqueue order even though
nothing was dropped. -/
theorem claim_C1_order_violation :
    (runPipe ⟨10, 1, 200⟩ [.enq, .enq, .connectFail [false, false], .connectOk,
        .cacheDrainFail false [], .connectOk, .cacheDrainOk, .cacheDrainOk,
        .cacheDrainOk]).written = [0, 1, 0] ∧
    (runPipe ⟨10, 1, 200⟩ [.enq, .enq, .connectFail [false, false], .connectOk,
        .cacheDrainFail false [], .connectOk, .cacheDrainOk, .cacheDrainOk,
        .cacheDrainOk]).cDropped = 0 ∧
    ¬ List.Pairwise (fun a b => a < b)
      (runPipe ⟨10, 1, 200⟩ [.enq, .enq, .connectFail [false, false], .connectOk,
        .cacheDrainFail false [], .connectOk, .cacheDrainOk, .cacheDrainOk,
        .cacheDrainOk]).written := by
  refine ⟨by decide, by decide, by decide⟩

/-- C2 counterexample: with the counters as the code keeps them the claimed
identity fails after a queue-full drop, because `enqueue` increments
`count_dropped` but not `count_enqueued` on `Full` (source lines 433-439):
after two enqueues into a 1-slot queue, enqueued = 1 while
written + dropped + spilled + queued = 2. -/
theorem claim_C2_counterexample :
    (runPipe ⟨1, 1, 200⟩ [.enq, .enq]).cEnq = 1 ∧
    (runPipe ⟨1, 1, 200⟩ [.enq, .enq]).cWritten
        + (runPipe ⟨1, 1, 200⟩ [.enq, .enq]).cDropped
        + (runPipe ⟨1, 1, 200⟩ [.enq, .enq]).cache.length
        + (runPipe ⟨1, 1, 200⟩ [.enq, .enq]).queue.length = 2 ∧
    (1 : Nat) ≠ 2 := by
  refine ⟨by decide, by decide, by decide⟩

/-- C2 amended: along any trace without a failed cache-drain insert (the
duplication bug excluded by C1), every reachable state satisfies
`count_enqueued = count_written + spill_drops + |spill store| + |queue|`
and `count_dropped = queue_full_drops + spill_drops`; consequently after a
full drain with no failures (empty store, empty queue, no spill drops) the
written counter equals the enqueued counter. -/
theorem claim_C2_amended (p : PipeParams) (evs : List PipeEv)
    (hg : ∀ e ∈ evs, goodEv e = true) :
    InvPipe (runPipe p evs) ∧
    ((runPipe p evs).cache = [] → (runPipe p evs).queue = [] →
      (runPipe p evs).spDrops = 0 →
      (runPipe p evs).cWritten = (runPipe p evs).cEnq) := by
  have hinv : InvPipe (runPipe p evs) := runPipe_inv p evs hg
  refine ⟨hinv, ?_⟩
  intro hc hq hsp
  obtain ⟨ha, hb⟩ := hinv
  rw [hc, hq] at ha
  simp at ha
  omega

/-- Witness: C2 amended applied to an enqueue, connect, memory-commit
trace. -/
theorem claim_C2_amended_witness :
    (∀ e ∈ [PipeEv.enq, PipeEv.connectOk, PipeEv.memOk], goodEv e = true) ∧
    (InvPipe (runPipe ⟨10, 5, 80⟩ [PipeEv.enq, PipeEv.connectOk, PipeEv.memOk]) ∧
      ((runPipe ⟨10, 5, 80⟩ [PipeEv.enq, PipeEv.connectOk, PipeEv.memOk]).cache = [] →
        (runPipe ⟨10, 5, 80⟩ [PipeEv.enq, PipeEv.connectOk, PipeEv.memOk]).queue = [] →
        (runPipe ⟨10, 5, 80⟩ [PipeEv.enq, PipeEv.connectOk, PipeEv.memOk]).spDrops = 0 →
        (runPipe ⟨10, 5, 80⟩ [PipeEv.enq, PipeEv.connectOk, PipeEv.memOk]).cWritten =
          (runPipe ⟨10, 5, 80⟩ [PipeEv.enq, PipeEv.connectOk, PipeEv.memOk]).cEnq)) :=
  ⟨by decide, claim_C2_amended ⟨10, 5, 80⟩ [PipeEv.enq, PipeEv.connectOk, PipeEv.memOk]
    (by decide)⟩

end WireTap
